import Mathlib

/-!
Verification of the SDN controller routing and failure-recovery engine
(`SDNController` in `main.py`).

The engine state consists of an undirected weighted/capacitated topology,
a per-node flow table (destination → installed path), per-pair traffic
descriptors, per-directed-edge utilization counters, and per-pair backup
path queues.  Python dictionaries are modelled as insertion-ordered
association lists; dictionary `KeyError`s (which the source does not
catch) are modelled with `Except`.  The networkx library functions the
source calls (`all_simple_paths`, `shortest_path`) are modelled from
their documented contracts, as noted on the corresponding definitions.
-/

set_option autoImplicit false

deriving instance DecidableEq for Except

/-- Node identifiers are opaque string tokens (the CLI passes strings). -/
abbrev Node := String

/-- Lookup in an insertion-ordered association list (Python dict access). -/
def dlookup {α β : Type} [DecidableEq α] : List (α × β) → α → Option β
  | [], _ => none
  | (k, v) :: rest, a => if k = a then some v else dlookup rest a

/-- Insert-or-update for an insertion-ordered association list
(`d[k] = v`): an existing key keeps its position, a new key is appended. -/
def dinsert {α β : Type} [DecidableEq α] : List (α × β) → α → β → List (α × β)
  | [], a, b => [(a, b)]
  | (k, v) :: rest, a, b =>
    if k = a then (a, b) :: rest else (k, v) :: dinsert rest a b

/-- Key removal for an association list (`d.pop(k, None)`). -/
def dpop {α β : Type} [DecidableEq α] : List (α × β) → α → List (α × β)
  | [], _ => []
  | (k, v) :: rest, a => if k = a then rest else (k, v) :: dpop rest a

/-- An undirected link as stored by `add_link`: endpoints in insertion
orientation plus `weight` and `capacity` attributes. -/
structure Edge where
  u : Node
  v : Node
  weight : Int
  capacity : Int
deriving DecidableEq, Repr

/-- The networkx graph held in `self.topology`: nodes and edges in
insertion order (Python dicts preserve insertion order). -/
structure Topology where
  nodes : List Node
  edges : List Edge
deriving DecidableEq, Repr

/-- Whether an edge between `a` and `b` (in either orientation) exists
(`self.topology.has_edge(u, v)`). -/
def Topology.hasEdge (t : Topology) (a b : Node) : Bool :=
  t.edges.any (fun e => (e.u == a && e.v == b) || (e.u == b && e.v == a))

/-- Model of `G.add_node(n)`: idempotent on the node set. -/
def Topology.addNode (t : Topology) (n : Node) : Topology :=
  if n ∈ t.nodes then t else { t with nodes := t.nodes ++ [n] }

/-- Model of `G.add_edge(u, v, weight=w, capacity=c)`: auto-adds missing endpoints;
an existing edge keeps its position and orientation and has its
attributes replaced, a new edge is appended. -/
def Topology.addEdge (t : Topology) (u v : Node) (w c : Int) : Topology :=
  let t := (t.addNode u).addNode v
  if t.hasEdge u v then
    { t with edges := t.edges.map (fun e =>
        if (e.u == u && e.v == v) || (e.u == v && e.v == u) then
          { e with weight := w, capacity := c }
        else e) }
  else
    { t with edges := t.edges ++ [⟨u, v, w, c⟩] }

/-- Model of `G.remove_edge(u, v)`: deletes the edge between `u` and `v`
(nodes are kept). -/
def Topology.removeEdge (t : Topology) (u v : Node) : Topology :=
  { t with edges := t.edges.filter (fun e =>
      !((e.u == u && e.v == v) || (e.u == v && e.v == u))) }

/-- Adjacency of `a` in insertion order: networkx keeps, for each node,
the neighbours in the order the incident edges were inserted. -/
def Topology.neighbors (t : Topology) (a : Node) : List Node :=
  t.edges.filterMap (fun e =>
    if e.u = a then some e.v else if e.v = a then some e.u else none)

/-- Well-formedness of a topology: every edge endpoint is a node.
All topologies built by the engine's operations satisfy this. -/
def Topology.Wf (t : Topology) : Prop :=
  ∀ e ∈ t.edges, e.u ∈ t.nodes ∧ e.v ∈ t.nodes

instance (t : Topology) : Decidable t.Wf :=
  inferInstanceAs (Decidable (∀ e ∈ t.edges, e.u ∈ t.nodes ∧ e.v ∈ t.nodes))

/-- Depth-first enumeration of the simple paths from `cur` to `dst` that
extend the visited prefix `pref ++ [cur]`, following adjacency
(insertion) order; `fuel` bounds the recursion depth.  This is the
recursion underlying `nx.all_simple_paths`. -/
def pathsAux (t : Topology) (dst : Node) : Nat → List Node → Node → List (List Node)
  | 0, _, _ => []
  | fuel + 1, pref, cur =>
    ((t.neighbors cur).map (fun w =>
      if w = dst then [pref ++ [cur, dst]]
      else if w ∈ pref ++ [cur] then []
      else pathsAux t dst fuel (pref ++ [cur]) w)).flatten

/-- Model of `nx.all_simple_paths(G, src, dst)`: all simple paths from
`src` to `dst` in depth-first order following adjacency insertion order.
A simple path visits at most `|nodes|` nodes, so fuel `|nodes|` imposes
no restriction (networkx's default cutoff likewise allows every simple
path). -/
def allSimplePaths (t : Topology) (src dst : Node) : List (List Node) :=
  pathsAux t dst t.nodes.length [] src

/-- Weight attribute of the edge between `a` and `b` (0 if absent; on
the paths the engine builds the edge always exists). -/
def edgeWeight (t : Topology) (a b : Node) : Int :=
  match t.edges.find? (fun e => (e.u == a && e.v == b) || (e.u == b && e.v == a)) with
  | some e => e.weight
  | none => 0

/-- Total weight of a path: sum of edge weights over consecutive pairs. -/
def pathWeight (t : Topology) : List Node → Int
  | a :: b :: rest => edgeWeight t a b + pathWeight t (b :: rest)
  | _ => 0

/-- Model of Python `min(xs, key=f)`: the first element attaining the
minimal key (`min` keeps the earliest element on ties).  Returns `[]`
on the empty list, on which the source never calls it. -/
def selectMinBy {β : Type} [LinearOrder β] (f : List Node → β) : List (List Node) → List Node
  | [] => []
  | p :: ps =>
    match ps with
    | [] => p
    | q :: ps' =>
      let m := selectMinBy f (q :: ps')
      if f p ≤ f m then p else m

/-- Model of `nx.shortest_path(G, src, dst, weight='weight')`:
Dijkstra's algorithm returns a simple path of minimum total edge weight
(its contract for the non-negative weights this system uses); modelled
as the first minimum-weight path of the simple-path enumeration (the
tie-break among minimum-weight paths is implementation-defined). -/
def shortest_path (t : Topology) (src dst : Node) : List Node :=
  selectMinBy (pathWeight t) (allSimplePaths t src dst)

/-- Model of Python `str.lower()` at character level for the ASCII
tokens the CLI passes: uppercase ASCII letters are shifted to lowercase
(written out so the kernel can evaluate it, unlike `String.toLower`). -/
def char_lower (c : Char) : Char :=
  if 'A' ≤ c ∧ c ≤ 'Z' then Char.ofNat (c.toNat + 32) else c

/-- Model of Python `str.lower()` (`traffic_type.lower()`). -/
def str_lower (s : String) : String :=
  String.mk (s.data.map char_lower)

/-- A traffic descriptor `{'type': ..., 'priority': ...}`. -/
structure TrafficInfo where
  ttype : String
  priority : Nat
deriving DecidableEq, Repr

/-- Source dictionary `self.priority_map = {'critical': 3, 'important': 2, 'default': 1}`. -/
def priority_map : List (String × Nat) :=
  [("critical", 3), ("important", 2), ("default", 1)]

/-- Outcome reported by `inject_flow`: the routed path, "No available
path" (entry present but null), or "No routing information" (pair never
computed). -/
inductive InjectReport where
  | routed (path : List Node)
  | noPath
  | noRoute
deriving DecidableEq, Repr

/-- Flow tables `{switch: {destination: path-or-None}}`. -/
abbrev FlowTables := List (Node × List (Node × Option (List Node)))

/-- Utilization counters `{(u, v): utilization}`. -/
abbrev UtilMap := List ((Node × Node) × Nat)

/-- Traffic descriptors `{(src, dst): {'type', 'priority'}}`. -/
abbrev TrafficMap := List ((Node × Node) × TrafficInfo)

/-- Backup paths `{(src, dst): [backup_paths]}`. -/
abbrev BackupMap := List ((Node × Node) × List (List Node))

/-- The full engine state (`SDNController.__init__`). -/
structure SDNController where
  topology : Topology
  flow_tables : FlowTables
  traffic : TrafficMap
  link_utilization : UtilMap
  backup_paths : BackupMap
deriving DecidableEq, Repr

/-- The initial state: everything empty. -/
def initController : SDNController :=
  { topology := { nodes := [], edges := [] }
    flow_tables := []
    traffic := []
    link_utilization := []
    backup_paths := [] }

/-- Source `add_node` for one node: inserts it in the topology and resets its
flow-table destination map to `{}`. -/
def add_node (st : SDNController) (node : Node) : SDNController :=
  { st with topology := st.topology.addNode node
            flow_tables := dinsert st.flow_tables node [] }

/-- Source `add_node(*nodes)` loops `add_node` over its arguments. -/
def add_nodes (st : SDNController) (nodes : List Node) : SDNController :=
  nodes.foldl add_node st

/-- Source `add_link(u, v, weight, capacity)`: inserts or replaces the link and
resets both directed utilization counters to 0. -/
def add_link (st : SDNController) (u v : Node) (weight capacity : Int) : SDNController :=
  { st with topology := st.topology.addEdge u v weight capacity
            link_utilization :=
              dinsert (dinsert st.link_utilization (u, v) 0) (v, u) 0 }

/-- Assignment `self.flow_tables[src][dst] = p`: raises `KeyError` when `src` has
no flow table. -/
def setFlow (ft : FlowTables) (src dst : Node) (p : Option (List Node)) :
    Except String FlowTables :=
  match dlookup ft src with
  | some inner => .ok (dinsert ft src (dinsert inner dst p))
  | none => .error "KeyError"

/-- Lookup `self.flow_tables.get(src, {})` followed by an inner lookup. -/
def lookupFlow (ft : FlowTables) (src dst : Node) : Option (Option (List Node)) :=
  (dlookup ft src).bind (fun inner => dlookup inner dst)

/-- Total utilization of a path: the sum over consecutive node pairs of
the directed utilization counter, a missing counter counting as 0
(the comprehension in `_select_load_balanced_path`). -/
def pathUtilization (util : UtilMap) : List Node → Nat
  | a :: b :: rest => (dlookup util (a, b)).getD 0 + pathUtilization util (b :: rest)
  | _ => 0

/-- Source `_select_load_balanced_path`: builds `(utilization, path)` pairs and
takes `min(..., key=itemgetter(0))[1]`, i.e. the first path of minimal
total utilization. -/
def _select_load_balanced_path (util : UtilMap) (paths : List (List Node)) : List Node :=
  selectMinBy (pathUtilization util) paths

/-- The path `_compute_path_with_priority` chooses once `all_paths` is
known to be non-empty: the weight-shortest path for critical priority,
the load-balanced path otherwise (source lines 56-64). -/
def choosePath (t : Topology) (traffic : TrafficMap) (util : UtilMap)
    (src dst : Node) : List Node :=
  let traffic_info := (dlookup traffic (src, dst)).getD ⟨"default", 1⟩
  if traffic_info.priority = (dlookup priority_map "critical").getD 0 then
    shortest_path t src dst
  else
    _select_load_balanced_path util (allSimplePaths t src dst)

/-- The flow-table entry `_compute_path_with_priority` records for a
pair: `none` (null) when no simple path exists, otherwise the chosen
path. -/
def pairPath (t : Topology) (traffic : TrafficMap) (util : UtilMap)
    (src dst : Node) : Option (List Node) :=
  if (allSimplePaths t src dst).isEmpty then none
  else some (choosePath t traffic util src dst)

/-- The backup list `_compute_path_with_priority` records when more than
one simple path exists: every enumerated path other than the chosen
one, in enumeration order. -/
def pairAlts (t : Topology) (traffic : TrafficMap) (util : UtilMap)
    (src dst : Node) : List (List Node) :=
  (allSimplePaths t src dst).filter (fun p => p ≠ choosePath t traffic util src dst)

/-- Source `_compute_path_with_priority(src, dst)`: the source's local
`all_paths` is `allSimplePaths st.topology src dst` and its local `path`
is `choosePath st.topology st.traffic st.link_utilization src dst`
(both written out so the definition unfolds without zeta reduction). -/
def _compute_path_with_priority (st : SDNController) (src dst : Node) :
    Except String SDNController :=
  if (allSimplePaths st.topology src dst).isEmpty then
    match setFlow st.flow_tables src dst none with
    | .ok ft => .ok { st with flow_tables := ft }
    | .error e => .error e
  else
    match setFlow st.flow_tables src dst
        (some (choosePath st.topology st.traffic st.link_utilization src dst)) with
    | .ok ft =>
      if 1 < (allSimplePaths st.topology src dst).length then
        .ok { st with flow_tables := ft
                      backup_paths := dinsert st.backup_paths (src, dst)
                        ((allSimplePaths st.topology src dst).filter (fun p =>
                          p ≠ choosePath st.topology st.traffic st.link_utilization src dst)) }
      else
        .ok { st with flow_tables := ft }
    | .error e => .error e

/-- The ordered pairs `compute_paths` iterates over: every `(src, dst)`
of topology nodes with `src ≠ dst`, in node insertion order. -/
def pairList (t : Topology) : List (Node × Node) :=
  (t.nodes.map (fun src =>
    (t.nodes.filter (fun dst => src != dst)).map (fun dst => (src, dst)))).flatten

/-- The double loop of `compute_paths`: runs
`_compute_path_with_priority` on each pair in turn; an uncaught
exception aborts the loop. -/
def computeFold : List (Node × Node) → SDNController → Except String SDNController
  | [], st => .ok st
  | (src, dst) :: rest, st =>
    match _compute_path_with_priority st src dst with
    | .ok st' => computeFold rest st'
    | .error e => .error e

/-- Source `compute_paths()`. -/
def compute_paths (st : SDNController) : Except String SDNController :=
  computeFold (pairList st.topology) st

/-- One iteration of the utilization update loop:
`self.link_utilization[(a, b)] += 1` then the same for `(b, a)`;
a missing counter raises `KeyError`. -/
def incrBoth (util : UtilMap) (a b : Node) : Except String UtilMap :=
  match dlookup util (a, b) with
  | none => .error "KeyError"
  | some x =>
    let util := dinsert util (a, b) (x + 1)
    match dlookup util (b, a) with
    | none => .error "KeyError"
    | some y => .ok (dinsert util (b, a) (y + 1))

/-- The loop `for i in range(len(path) - 1)` incrementing both directed
counters of every consecutive pair of `path`. -/
def incrPath (util : UtilMap) : List Node → Except String UtilMap
  | a :: b :: rest =>
    match incrBoth util a b with
    | .ok util' => incrPath util' (b :: rest)
    | .error e => .error e
  | _ => .ok util

/-- Source `inject_flow(src, dst, traffic_type)`: records the traffic
descriptor, then consumes the flow table entry, accounting utilization
when a path is installed. -/
def inject_flow (st : SDNController) (src dst : Node) (traffic_type : String) :
    Except String (InjectReport × SDNController) :=
  let priority := (dlookup priority_map (str_lower traffic_type)).getD 1
  let st := { st with traffic := dinsert st.traffic (src, dst) ⟨traffic_type, priority⟩ }
  let inner := (dlookup st.flow_tables src).getD []
  match dlookup inner dst with
  | none => .ok (.noRoute, st)
  | some pathOpt =>
    match pathOpt with
    | none => .ok (.noPath, st)
    | some path =>
      if path.isEmpty then .ok (.noPath, st)
      else
        match incrPath st.link_utilization path with
        | .ok util => .ok (.routed path, { st with link_utilization := util })
        | .error e => .error e

/-- Whether a path traverses the link `{u, v}` in either direction
(the `any (...)` in `_handle_link_failure`). -/
def pathUsesLink (u v : Node) : List Node → Bool
  | a :: b :: rest =>
    ((a == u && b == v) || (a == v && b == u)) || pathUsesLink u v (b :: rest)
  | _ => false

/-- The affected-flow scan of `_handle_link_failure`: every `(src, dst)`
whose non-null installed path traverses the removed link, in flow-table
iteration order. -/
def affectedFlows (ft : FlowTables) (u v : Node) : List (Node × Node) :=
  (ft.map (fun sv => sv.2.filterMap (fun dp =>
    match dp.2 with
    | some p => if pathUsesLink u v p then some (sv.1, dp.1) else none
    | none => none))).flatten

/-- The rerouting loop of `_handle_link_failure`: for each affected
pair, pop the first backup path (if any), install it and account its
utilization, else install a null entry. -/
def rerouteFold : List (Node × Node) → SDNController → Except String SDNController
  | [], st => .ok st
  | (src, dst) :: rest, st =>
    match dlookup st.backup_paths (src, dst) with
    | some (backup :: more) =>
      let st1 := { st with backup_paths := dinsert st.backup_paths (src, dst) more }
      match setFlow st1.flow_tables src dst (some backup) with
      | .ok ft =>
        let st2 := { st1 with flow_tables := ft }
        match incrPath st2.link_utilization backup with
        | .ok util => rerouteFold rest { st2 with link_utilization := util }
        | .error e => .error e
      | .error e => .error e
    | _ =>
      match setFlow st.flow_tables src dst none with
      | .ok ft => rerouteFold rest { st with flow_tables := ft }
      | .error e => .error e

/-- Source `_handle_link_failure(u, v)`. -/
def _handle_link_failure (st : SDNController) (u v : Node) :
    Except String SDNController :=
  rerouteFold (affectedFlows st.flow_tables u v) st

/-- Source `remove_link(u, v)`: a no-op when the link is absent; otherwise
deletes the link and both directed counters, then runs the failure
handler. -/
def remove_link (st : SDNController) (u v : Node) : Except String SDNController :=
  if st.topology.hasEdge u v then
    let st := { st with topology := st.topology.removeEdge u v
                        link_utilization :=
                          dpop (dpop st.link_utilization (u, v)) (v, u) }
    _handle_link_failure st u v
  else
    .ok st

/-- Whether every consecutive pair of nodes of a path is joined by an
existing link. -/
def chainedPath (t : Topology) : List Node → Bool
  | a :: b :: rest => t.hasEdge a b && chainedPath t (b :: rest)
  | _ => true

/-- A simple path from `src` to `dst`: distinct nodes, starting at
`src`, ending at `dst`, each consecutive pair joined by an existing
link. -/
def isSimplePath (t : Topology) (src dst : Node) (p : List Node) : Prop :=
  p.Nodup ∧ p.head? = some src ∧ p.getLast? = some dst ∧ chainedPath t p = true

instance (t : Topology) (src dst : Node) (p : List Node) :
    Decidable (isSimplePath t src dst p) :=
  inferInstanceAs (Decidable (p.Nodup ∧ p.head? = some src ∧ p.getLast? = some dst ∧
    chainedPath t p = true))

/-- One transition of the engine: a public operation that completed
without an uncaught exception. -/
inductive EngineStep : SDNController → SDNController → Prop where
  | add_node (st : SDNController) (n : Node) : EngineStep st (add_node st n)
  | add_link (st : SDNController) (u v : Node) (w c : Int) :
      EngineStep st (add_link st u v w c)
  | remove_link (st : SDNController) (u v : Node) (st' : SDNController) :
      remove_link st u v = .ok st' → EngineStep st st'
  | inject_flow (st : SDNController) (src dst : Node) (ty : String)
      (r : InjectReport) (st' : SDNController) :
      inject_flow st src dst ty = .ok (r, st') → EngineStep st st'
  | compute_paths (st st' : SDNController) :
      compute_paths st = .ok st' → EngineStep st st'

/-- States reachable from the initial controller state by completed
public operations. -/
inductive Reachable : SDNController → Prop where
  | init : Reachable initController
  | step {st st' : SDNController} : Reachable st → EngineStep st st' → Reachable st'

/-- Runs `compute_paths` and keeps the state unchanged if it raised
(convenience for building concrete states). -/
def afterCompute (st : SDNController) : SDNController :=
  match compute_paths st with
  | .ok s => s
  | .error _ => st

/-- Runs `remove_link` and keeps the state unchanged if it raised. -/
def afterRemove (st : SDNController) (u v : Node) : SDNController :=
  match remove_link st u v with
  | .ok s => s
  | .error _ => st

/-- Runs `inject_flow` and keeps the state unchanged if it raised. -/
def afterInject (st : SDNController) (src dst : Node) (ty : String) : SDNController :=
  match inject_flow st src dst ty with
  | .ok (_, s) => s
  | .error _ => st

/-! ### Association-list lemmas -/

theorem dlookup_dinsert_self {α β : Type} [DecidableEq α] (m : List (α × β)) (k : α) (v : β) :
    dlookup (dinsert m k v) k = some v := by
  induction m with
  | nil => simp [dinsert, dlookup]
  | cons hd rest ih =>
    obtain ⟨k', v'⟩ := hd
    by_cases hk : k' = k
    · simp [dinsert, hk, dlookup]
    · simp [dinsert, hk, dlookup, ih]

theorem dlookup_dinsert_ne {α β : Type} [DecidableEq α] (m : List (α × β)) (k : α) (v : β)
    (k' : α) (h : k' ≠ k) : dlookup (dinsert m k v) k' = dlookup m k' := by
  induction m with
  | nil => simp [dinsert, dlookup, Ne.symm h]
  | cons hd rest ih =>
    obtain ⟨a, b⟩ := hd
    by_cases ha : a = k
    · subst ha
      simp [dinsert, dlookup, Ne.symm h]
    · simp [dinsert, ha, dlookup, ih]

theorem dinsert_id {α β : Type} [DecidableEq α] (m : List (α × β)) (k : α) (v : β)
    (h : dlookup m k = some v) : dinsert m k v = m := by
  induction m with
  | nil => simp [dlookup] at h
  | cons hd rest ih =>
    obtain ⟨a, b⟩ := hd
    by_cases ha : a = k
    · subst ha
      simp [dlookup] at h
      simp [dinsert, h]
    · simp [dlookup, ha] at h
      simp [dinsert, ha, ih h]

theorem dlookup_eq_none {α β : Type} [DecidableEq α] (m : List (α × β)) (k : α)
    (h : k ∉ m.map Prod.fst) : dlookup m k = none := by
  induction m with
  | nil => rfl
  | cons hd rest ih =>
    obtain ⟨a, b⟩ := hd
    simp only [List.map_cons, List.mem_cons] at h
    push_neg at h
    simp [dlookup, Ne.symm h.1, ih h.2]

theorem dlookup_dpop_ne {α β : Type} [DecidableEq α] (m : List (α × β)) (k k' : α)
    (h : k' ≠ k) : dlookup (dpop m k) k' = dlookup m k' := by
  induction m with
  | nil => simp [dpop]
  | cons hd rest ih =>
    obtain ⟨a, b⟩ := hd
    by_cases ha : a = k
    · subst ha
      simp [dpop, dlookup, Ne.symm h]
    · simp [dpop, ha, dlookup, ih]

theorem dpop_keys_sublist {α β : Type} [DecidableEq α] (m : List (α × β)) (k : α) :
    ((dpop m k).map Prod.fst).Sublist (m.map Prod.fst) := by
  induction m with
  | nil => simp [dpop]
  | cons hd rest ih =>
    obtain ⟨a, b⟩ := hd
    by_cases ha : a = k
    · subst ha
      simp only [dpop, if_pos rfl, List.map_cons]
      exact List.sublist_cons_self _ _
    · simp only [dpop, if_neg ha, List.map_cons]
      exact ih.cons₂ a

theorem dlookup_dpop_self {α β : Type} [DecidableEq α] (m : List (α × β)) (k : α)
    (h : (m.map Prod.fst).Nodup) : dlookup (dpop m k) k = none := by
  induction m with
  | nil => simp [dpop, dlookup]
  | cons hd rest ih =>
    obtain ⟨a, b⟩ := hd
    simp only [List.map_cons, List.nodup_cons] at h
    by_cases ha : a = k
    · subst ha
      simp only [dpop, if_pos rfl]
      exact dlookup_eq_none rest a h.1
    · simp only [dpop, if_neg ha, dlookup, if_neg ha]
      exact ih h.2

theorem dinsert_keys {α β : Type} [DecidableEq α] (m : List (α × β)) (k : α) (v : β) :
    (dinsert m k v).map Prod.fst = m.map Prod.fst ∨
      (k ∉ m.map Prod.fst ∧
        (dinsert m k v).map Prod.fst = m.map Prod.fst ++ [k]) := by
  induction m with
  | nil => right; simp [dinsert]
  | cons hd rest ih =>
    obtain ⟨a, b⟩ := hd
    by_cases ha : a = k
    · subst ha; left; simp [dinsert]
    · rcases ih with ih | ⟨hnk, ih⟩
      · left; simp [dinsert, ha, ih]
      · right
        refine ⟨?_, by simp [dinsert, ha, ih]⟩
        simp only [List.map_cons, List.mem_cons]
        push_neg
        exact ⟨Ne.symm ha, hnk⟩

theorem dinsert_keys_nodup {α β : Type} [DecidableEq α] (m : List (α × β)) (k : α) (v : β)
    (h : (m.map Prod.fst).Nodup) : ((dinsert m k v).map Prod.fst).Nodup := by
  rcases dinsert_keys m k v with hk | ⟨hnk, hk⟩
  · rw [hk]; exact h
  · rw [hk]
    refine h.append (List.nodup_singleton k) ?_
    intro x hx hx'
    simp only [List.mem_singleton] at hx'
    subst hx'
    exact hnk hx

/-! ### Properties of the first-minimum selector -/

theorem selectMinBy_spec {β : Type} [LinearOrder β] (f : List Node → β) :
    ∀ l : List (List Node), l ≠ [] →
      ∃ l₁ l₂, l = l₁ ++ selectMinBy f l :: l₂ ∧
        (∀ q ∈ l, f (selectMinBy f l) ≤ f q) ∧
        (∀ r ∈ l₁, f (selectMinBy f l) < f r) := by
  intro l
  induction l with
  | nil => intro h; exact absurd rfl h
  | cons p ps ih =>
    intro _
    cases ps with
    | nil =>
      exact ⟨[], [], by simp [selectMinBy], by simp [selectMinBy], by simp⟩
    | cons q ps' =>
      obtain ⟨l₁, l₂, hdec, hmin, hfirst⟩ := ih (by simp)
      by_cases hle : f p ≤ f (selectMinBy f (q :: ps'))
      · have hsel : selectMinBy f (p :: q :: ps') = p := by
          simp [selectMinBy, hle]
        refine ⟨[], q :: ps', by simp [hsel], ?_, by simp⟩
        intro r hr
        rw [hsel]
        rcases List.mem_cons.mp hr with h | h
        · rw [h]
        · exact le_trans hle (hmin r h)
      · have hsel : selectMinBy f (p :: q :: ps') = selectMinBy f (q :: ps') := by
          simp [selectMinBy, hle]
        refine ⟨p :: l₁, l₂, ?_, ?_, ?_⟩
        · rw [hsel, List.cons_append, ← hdec]
        · intro r hr
          rw [hsel]
          rcases List.mem_cons.mp hr with h | h
          · rw [h]; exact le_of_lt (lt_of_not_ge hle)
          · exact hmin r h
        · intro r hr
          rw [hsel]
          rcases List.mem_cons.mp hr with h | h
          · rw [h]; exact lt_of_not_ge hle
          · exact hfirst r h

theorem selectMinBy_min {β : Type} [LinearOrder β] (f : List Node → β)
    (l : List (List Node)) (hne : l ≠ []) (q : List Node) (hq : q ∈ l) :
    f (selectMinBy f l) ≤ f q :=
  (selectMinBy_spec f l hne).choose_spec.choose_spec.2.1 q hq

/-! ### Flow-table write lemmas -/

theorem setFlow_ok {ft : FlowTables} {src dst : Node} {p : Option (List Node)}
    {ft' : FlowTables} (h : setFlow ft src dst p = .ok ft') :
    ∃ inner, dlookup ft src = some inner ∧
      ft' = dinsert ft src (dinsert inner dst p) := by
  unfold setFlow at h
  cases hh : dlookup ft src with
  | none => rw [hh] at h; exact absurd h (by simp)
  | some inner =>
    rw [hh] at h
    refine ⟨inner, rfl, ?_⟩
    simpa using h.symm

theorem lookupFlow_setFlow_self {ft ft' : FlowTables} {src dst : Node}
    {p : Option (List Node)} (h : setFlow ft src dst p = .ok ft') :
    lookupFlow ft' src dst = some p := by
  obtain ⟨inner, hin, hft⟩ := setFlow_ok h
  rw [hft]
  unfold lookupFlow
  rw [dlookup_dinsert_self]
  simp [dlookup_dinsert_self]

theorem lookupFlow_setFlow_ne {ft ft' : FlowTables} {src dst : Node}
    {p : Option (List Node)} (h : setFlow ft src dst p = .ok ft')
    (x y : Node) (hxy : (x, y) ≠ (src, dst)) :
    lookupFlow ft' x y = lookupFlow ft x y := by
  obtain ⟨inner, hin, hft⟩ := setFlow_ok h
  rw [hft]
  unfold lookupFlow
  by_cases hx : x = src
  · subst hx
    have hy : y ≠ dst := by
      intro hy; exact hxy (by rw [hy])
    rw [dlookup_dinsert_self, hin]
    simp [dlookup_dinsert_ne _ _ _ _ hy]
  · rw [dlookup_dinsert_ne _ _ _ _ hx]

theorem dlookup_setFlow_ne {ft ft' : FlowTables} {src dst : Node}
    {p : Option (List Node)} (h : setFlow ft src dst p = .ok ft')
    (x : Node) (hx : x ≠ src) : dlookup ft' x = dlookup ft x := by
  obtain ⟨inner, hin, hft⟩ := setFlow_ok h
  rw [hft, dlookup_dinsert_ne _ _ _ _ hx]

/-! ### Completeness of the simple-path enumeration -/

theorem hasEdge_exists {t : Topology} {a b : Node} (h : t.hasEdge a b = true) :
    ∃ e ∈ t.edges, (e.u = a ∧ e.v = b) ∨ (e.u = b ∧ e.v = a) := by
  unfold Topology.hasEdge at h
  rw [List.any_eq_true] at h
  obtain ⟨e, he, hcond⟩ := h
  refine ⟨e, he, ?_⟩
  simpa only [Bool.or_eq_true, Bool.and_eq_true, beq_iff_eq] using hcond

theorem mem_neighbors_of_hasEdge {t : Topology} {a b : Node}
    (h : t.hasEdge a b = true) : b ∈ t.neighbors a := by
  obtain ⟨e, he, hcond⟩ := hasEdge_exists h
  unfold Topology.neighbors
  rw [List.mem_filterMap]
  refine ⟨e, he, ?_⟩
  rcases hcond with ⟨hu, hv⟩ | ⟨hu, hv⟩
  · rw [if_pos hu, hv]
  · by_cases hba : e.u = a
    · have hab : b = a := by rw [← hu, hba]
      rw [if_pos hba, hv, hab]
    · rw [if_neg hba, if_pos hv, hu]

theorem hasEdge_mem_nodes {t : Topology} (hwf : t.Wf) {a b : Node}
    (h : t.hasEdge a b = true) : a ∈ t.nodes ∧ b ∈ t.nodes := by
  obtain ⟨e, he, hcond⟩ := hasEdge_exists h
  obtain ⟨hu, hv⟩ := hwf e he
  rcases hcond with ⟨h1, h2⟩ | ⟨h1, h2⟩
  · exact ⟨h1 ▸ hu, h2 ▸ hv⟩
  · exact ⟨h2 ▸ hv, h1 ▸ hu⟩

theorem chain_mem_nodes {t : Topology} (hwf : t.Wf) :
    ∀ (l : List Node) (a : Node), l ≠ [] →
      chainedPath t (a :: l) = true →
      ∀ x ∈ a :: l, x ∈ t.nodes := by
  intro l
  induction l with
  | nil => intro a h; exact absurd rfl h
  | cons b l' ih =>
    intro a _ hch x hx
    rw [show chainedPath t (a :: b :: l') =
        (t.hasEdge a b && chainedPath t (b :: l')) from rfl,
      Bool.and_eq_true] at hch
    obtain ⟨hab, hch'⟩ := hch
    rcases List.mem_cons.mp hx with hxa | hx'
    · exact hxa ▸ (hasEdge_mem_nodes hwf hab).1
    · cases l' with
      | nil =>
        have : x = b := by simpa using hx'
        exact this ▸ (hasEdge_mem_nodes hwf hab).2
      | cons c l'' =>
        exact ih b (by simp) hch' x hx'

theorem mem_of_getLast?_eq {α : Type} {l : List α} {a : α}
    (h : l.getLast? = some a) : a ∈ l := by
  induction l with
  | nil => simp at h
  | cons b l' ih =>
    cases l' with
    | nil =>
      have : b = a := by simpa using h
      simp [this]
    | cons c l'' =>
      rw [List.getLast?_cons_cons] at h
      exact List.mem_cons_of_mem b (ih h)

theorem pathsAux_complete (t : Topology) (dst : Node) :
    ∀ (rest : List Node) (fuel : Nat) (pref : List Node) (cur : Node),
      rest ≠ [] →
      rest.length ≤ fuel →
      (pref ++ cur :: rest).Nodup →
      chainedPath t (cur :: rest) = true →
      rest.getLast? = some dst →
      (pref ++ cur :: rest) ∈ pathsAux t dst fuel pref cur := by
  intro rest
  induction rest with
  | nil => intro _ _ _ h; exact absurd rfl h
  | cons w rest' ih =>
    intro fuel pref cur _ hlen hnd hch hlast
    cases fuel with
    | zero => simp at hlen
    | succ f =>
      rw [show chainedPath t (cur :: w :: rest') =
          (t.hasEdge cur w && chainedPath t (w :: rest')) from rfl,
        Bool.and_eq_true] at hch
      obtain ⟨hcw, hch'⟩ := hch
      have hw : w ∈ t.neighbors cur := mem_neighbors_of_hasEdge hcw
      have hnd' : ((pref ++ [cur]) ++ w :: rest').Nodup := by
        simpa [List.append_assoc] using hnd
      have hwnotpc : w ∉ pref ++ [cur] := by
        rw [List.nodup_append] at hnd'
        intro hmem
        exact hnd'.2.2 hmem (List.mem_cons_self w rest')
      unfold pathsAux
      rw [List.mem_flatten]
      cases rest' with
      | nil =>
        have hwdst : w = dst := by simpa using hlast
        subst hwdst
        refine ⟨[pref ++ [cur, w]], ?_, by simp⟩
        rw [List.mem_map]
        exact ⟨w, hw, by rw [if_pos rfl]⟩
      | cons w' rest'' =>
        have hlast' : (w' :: rest'').getLast? = some dst := by
          rw [List.getLast?_cons_cons] at hlast
          exact hlast
        have hdstmem : dst ∈ w' :: rest'' := mem_of_getLast?_eq hlast'
        have hwrest : w ∉ w' :: rest'' := by
          rw [List.nodup_append] at hnd'
          exact (List.nodup_cons.mp hnd'.2.1).1
        have hwd : w ≠ dst := fun he => hwrest (he ▸ hdstmem)
        refine ⟨pathsAux t dst f (pref ++ [cur]) w, ?_, ?_⟩
        · rw [List.mem_map]
          exact ⟨w, hw, by rw [if_neg hwd, if_neg hwnotpc]⟩
        · have hmem := ih f (pref ++ [cur]) w (by simp)
            (by simpa using Nat.le_of_succ_le_succ hlen) hnd' hch' hlast'
          simpa [List.append_assoc] using hmem

theorem allSimplePaths_complete {t : Topology} (hwf : t.Wf) {src dst : Node}
    {p : List Node} (hne : src ≠ dst) (hp : isSimplePath t src dst p) :
    p ∈ allSimplePaths t src dst := by
  obtain ⟨hnd, hhead, hlast, hch⟩ := hp
  cases p with
  | nil => simp at hhead
  | cons a rest =>
    have ha : a = src := by simpa using hhead
    subst ha
    cases rest with
    | nil =>
      have : a = dst := by simpa using hlast
      exact absurd this hne
    | cons b rest' =>
      have hsub : ∀ x ∈ a :: b :: rest', x ∈ t.nodes :=
        chain_mem_nodes hwf (b :: rest') a (by simp) hch
      have hlenp : (a :: b :: rest').length ≤ t.nodes.length :=
        (hnd.subperm (fun x hx => hsub x hx)).length_le
      have hrestlen : (b :: rest').length ≤ t.nodes.length := by
        simp only [List.length_cons] at hlenp ⊢
        omega
      have hlast' : (b :: rest').getLast? = some dst := by
        rw [List.getLast?_cons_cons] at hlast
        exact hlast
      have hmem := pathsAux_complete t dst (b :: rest') t.nodes.length [] a
        (by simp) hrestlen (by simpa using hnd) hch hlast'
      simpa [allSimplePaths] using hmem

theorem allSimplePaths_ne_nil {t : Topology} (hwf : t.Wf) {src dst : Node}
    {q : List Node} (hne : src ≠ dst) (hq : isSimplePath t src dst q) :
    allSimplePaths t src dst ≠ [] := by
  intro h
  have := allSimplePaths_complete hwf hne hq
  rw [h] at this
  exact absurd this (List.not_mem_nil q)

/-! ### Characterization of one path-computation step -/

theorem compute_pair_ok {st st' : SDNController} {src dst : Node}
    (h : _compute_path_with_priority st src dst = .ok st') :
    st'.topology = st.topology ∧ st'.traffic = st.traffic ∧
    st'.link_utilization = st.link_utilization ∧
    (∃ inner, dlookup st.flow_tables src = some inner ∧
      st'.flow_tables = dinsert st.flow_tables src
        (dinsert inner dst (pairPath st.topology st.traffic st.link_utilization src dst))) ∧
    st'.backup_paths =
      (if 1 < (allSimplePaths st.topology src dst).length then
        dinsert st.backup_paths (src, dst)
          (pairAlts st.topology st.traffic st.link_utilization src dst)
      else st.backup_paths) := by
  unfold _compute_path_with_priority at h
  by_cases hemp : (allSimplePaths st.topology src dst).isEmpty
  · rw [if_pos hemp] at h
    cases hsf : setFlow st.flow_tables src dst none with
    | error e => rw [hsf] at h; exact absurd h (by simp)
    | ok ft =>
      rw [hsf] at h
      simp only [Except.ok.injEq] at h
      obtain ⟨inner, hin, hft⟩ := setFlow_ok hsf
      have hlen : ¬ 1 < (allSimplePaths st.topology src dst).length := by
        rw [List.isEmpty_iff] at hemp
        rw [hemp]
        simp
      have hpp : pairPath st.topology st.traffic st.link_utilization src dst = none := by
        unfold pairPath
        rw [if_pos hemp]
      rw [← h]
      exact ⟨rfl, rfl, rfl, ⟨inner, hin, by rw [hpp, ← hft]⟩, by rw [if_neg hlen]⟩
  · rw [if_neg hemp] at h
    cases hsf : setFlow st.flow_tables src dst
        (some (choosePath st.topology st.traffic st.link_utilization src dst)) with
    | error e => rw [hsf] at h; exact absurd h (by simp)
    | ok ft =>
      rw [hsf] at h
      obtain ⟨inner, hin, hft⟩ := setFlow_ok hsf
      have hpp : pairPath st.topology st.traffic st.link_utilization src dst =
          some (choosePath st.topology st.traffic st.link_utilization src dst) := by
        unfold pairPath
        rw [if_neg hemp]
      by_cases hlen : 1 < (allSimplePaths st.topology src dst).length
      · simp only [hlen, ite_true, Except.ok.injEq] at h
        rw [← h]
        refine ⟨rfl, rfl, rfl, ⟨inner, hin, by rw [hpp, ← hft]⟩, ?_⟩
        rw [if_pos hlen]
        rfl
      · simp only [hlen, ite_false, Except.ok.injEq] at h
        rw [← h]
        exact ⟨rfl, rfl, rfl, ⟨inner, hin, by rw [hpp, ← hft]⟩, by rw [if_neg hlen]⟩

/-! ### The path-computation double loop -/

theorem computeFold_frame : ∀ (l : List (Node × Node)) (st st' : SDNController),
    computeFold l st = .ok st' →
    st'.topology = st.topology ∧ st'.traffic = st.traffic ∧
      st'.link_utilization = st.link_utilization := by
  intro l
  induction l with
  | nil =>
    intro st st' h
    simp only [computeFold, Except.ok.injEq] at h
    rw [← h]
    exact ⟨rfl, rfl, rfl⟩
  | cons p rest ih =>
    intro st st' h
    obtain ⟨x, y⟩ := p
    unfold computeFold at h
    cases hc : _compute_path_with_priority st x y with
    | error e => rw [hc] at h; exact absurd h (by simp)
    | ok st1 =>
      rw [hc] at h
      obtain ⟨ht, htr, hu, _, _⟩ := compute_pair_ok hc
      obtain ⟨ht', htr', hu'⟩ := ih st1 st' h
      exact ⟨ht'.trans ht, htr'.trans htr, hu'.trans hu⟩

theorem computeFold_flow : ∀ (l : List (Node × Node)) (st st' : SDNController),
    computeFold l st = .ok st' → ∀ a b : Node,
      lookupFlow st'.flow_tables a b =
        if (a, b) ∈ l then
          some (pairPath st.topology st.traffic st.link_utilization a b)
        else lookupFlow st.flow_tables a b := by
  intro l
  induction l with
  | nil =>
    intro st st' h a b
    simp only [computeFold, Except.ok.injEq] at h
    rw [← h]
    simp
  | cons p rest ih =>
    intro st st' h a b
    obtain ⟨x, y⟩ := p
    unfold computeFold at h
    cases hc : _compute_path_with_priority st x y with
    | error e => rw [hc] at h; exact absurd h (by simp)
    | ok st1 =>
      rw [hc] at h
      obtain ⟨ht, htr, hu, ⟨inner, hin, hft⟩, _⟩ := compute_pair_ok hc
      have hpair : ∀ a' b' : Node,
          pairPath st1.topology st1.traffic st1.link_utilization a' b' =
          pairPath st.topology st.traffic st.link_utilization a' b' := by
        intro a' b'
        rw [ht, htr, hu]
      have hstep_self : lookupFlow st1.flow_tables x y =
          some (pairPath st.topology st.traffic st.link_utilization x y) := by
        rw [hft]
        unfold lookupFlow
        rw [dlookup_dinsert_self]
        simp [dlookup_dinsert_self]
      have hstep_ne : ∀ a' b' : Node, (a', b') ≠ (x, y) →
          lookupFlow st1.flow_tables a' b' = lookupFlow st.flow_tables a' b' := by
        intro a' b' hne
        rw [hft]
        unfold lookupFlow
        by_cases hx : a' = x
        · subst hx
          have hy : b' ≠ y := fun hy => hne (by rw [hy])
          rw [dlookup_dinsert_self, hin]
          simp [dlookup_dinsert_ne _ _ _ _ hy]
        · rw [dlookup_dinsert_ne _ _ _ _ hx]
      have hih := ih st1 st' h a b
      by_cases hxy : (a, b) = (x, y)
      · have ha : a = x := congrArg Prod.fst hxy
        have hb : b = y := congrArg Prod.snd hxy
        subst ha
        subst hb
        rw [if_pos (List.mem_cons_self _ _)]
        by_cases hmem : (a, b) ∈ rest
        · rw [hih, if_pos hmem, hpair]
        · rw [hih, if_neg hmem, hstep_self]
      · by_cases hmem : (a, b) ∈ rest
        · have hml : (a, b) ∈ (x, y) :: rest := List.mem_cons_of_mem _ hmem
          rw [if_pos hml, hih, if_pos hmem, hpair]
        · have hml : (a, b) ∉ (x, y) :: rest := by
            rw [List.mem_cons]
            push_neg
            exact ⟨hxy, hmem⟩
          rw [if_neg hml, hih, if_neg hmem, hstep_ne a b hxy]

theorem computeFold_backup : ∀ (l : List (Node × Node)) (st st' : SDNController),
    computeFold l st = .ok st' → ∀ k : Node × Node,
      dlookup st'.backup_paths k =
        if k ∈ l ∧ 1 < (allSimplePaths st.topology k.1 k.2).length then
          some (pairAlts st.topology st.traffic st.link_utilization k.1 k.2)
        else dlookup st.backup_paths k := by
  intro l
  induction l with
  | nil =>
    intro st st' h k
    simp only [computeFold, Except.ok.injEq] at h
    rw [← h]
    simp
  | cons p rest ih =>
    intro st st' h k
    obtain ⟨x, y⟩ := p
    obtain ⟨k1, k2⟩ := k
    unfold computeFold at h
    cases hc : _compute_path_with_priority st x y with
    | error e => rw [hc] at h; exact absurd h (by simp)
    | ok st1 =>
      rw [hc] at h
      obtain ⟨ht, htr, hu, _, hbk⟩ := compute_pair_ok hc
      have hih := ih st1 st' h (k1, k2)
      rw [ht, htr, hu] at hih
      by_cases hk : (k1, k2) = (x, y)
      · have h1 : k1 = x := congrArg Prod.fst hk
        have h2 : k2 = y := congrArg Prod.snd hk
        subst h1
        subst h2
        by_cases hC : 1 < (allSimplePaths st.topology k1 k2).length
        · rw [if_pos ⟨List.mem_cons_self _ _, hC⟩]
          by_cases hmem : (k1, k2) ∈ rest
          · rw [hih, if_pos ⟨hmem, hC⟩]
          · rw [hih, if_neg (fun hco => hmem hco.1), hbk, if_pos hC,
              dlookup_dinsert_self]
        · rw [if_neg (fun hco => hC hco.2), hih, if_neg (fun hco => hC hco.2),
            hbk, if_neg hC]
      · have hlk1 : dlookup st1.backup_paths (k1, k2) =
            dlookup st.backup_paths (k1, k2) := by
          rw [hbk]
          by_cases hC : 1 < (allSimplePaths st.topology x y).length
          · rw [if_pos hC, dlookup_dinsert_ne _ _ _ _ hk]
          · rw [if_neg hC]
        have hmemiff : ((k1, k2) ∈ (x, y) :: rest) ↔ ((k1, k2) ∈ rest) := by
          rw [List.mem_cons]
          exact or_iff_right hk
        by_cases hmem : (k1, k2) ∈ rest
        · by_cases hC : 1 < (allSimplePaths st.topology k1 k2).length
          · rw [if_pos ⟨hmemiff.mpr hmem, hC⟩, hih, if_pos ⟨hmem, hC⟩]
          · rw [if_neg (fun hco => hC hco.2), hih,
              if_neg (fun hco => hC hco.2), hlk1]
        · rw [if_neg (fun hco => hmem (hmemiff.mp hco.1)), hih,
            if_neg (fun hco => hmem hco.1), hlk1]

/-! ### Pair enumeration and idempotence of path computation -/

theorem pairList_mem {t : Topology} {a b : Node} :
    (a, b) ∈ pairList t ↔ a ∈ t.nodes ∧ b ∈ t.nodes ∧ a ≠ b := by
  unfold pairList
  rw [List.mem_flatten]
  constructor
  · rintro ⟨l, hl, hab⟩
    rw [List.mem_map] at hl
    obtain ⟨src, hsrc, rfl⟩ := hl
    rw [List.mem_map] at hab
    obtain ⟨dst, hdst, heq⟩ := hab
    rw [List.mem_filter] at hdst
    have h1 : src = a := congrArg Prod.fst heq
    have h2 : dst = b := congrArg Prod.snd heq
    subst h1
    subst h2
    refine ⟨hsrc, hdst.1, ?_⟩
    simpa using hdst.2
  · rintro ⟨ha, hb, hne⟩
    refine ⟨(t.nodes.filter (fun dst => a != dst)).map (fun dst => (a, dst)), ?_, ?_⟩
    · rw [List.mem_map]
      exact ⟨a, ha, rfl⟩
    · rw [List.mem_map]
      refine ⟨b, ?_, rfl⟩
      rw [List.mem_filter]
      exact ⟨hb, by simpa using hne⟩

theorem compute_pair_id {st : SDNController} {a b : Node}
    (hflow : lookupFlow st.flow_tables a b =
      some (pairPath st.topology st.traffic st.link_utilization a b))
    (hbk : 1 < (allSimplePaths st.topology a b).length →
      dlookup st.backup_paths (a, b) =
        some (pairAlts st.topology st.traffic st.link_utilization a b)) :
    _compute_path_with_priority st a b = .ok st := by
  obtain ⟨inner, hin, hlk⟩ : ∃ inner, dlookup st.flow_tables a = some inner ∧
      dlookup inner b =
        some (pairPath st.topology st.traffic st.link_utilization a b) := by
    unfold lookupFlow at hflow
    cases ho : dlookup st.flow_tables a with
    | none => rw [ho] at hflow; simp at hflow
    | some inner =>
      rw [ho] at hflow
      exact ⟨inner, rfl, by simpa using hflow⟩
  have hsetid : setFlow st.flow_tables a b
      (pairPath st.topology st.traffic st.link_utilization a b) = .ok st.flow_tables := by
    unfold setFlow
    rw [hin]
    simp only [dinsert_id inner b _ hlk, dinsert_id st.flow_tables a inner hin]
  unfold _compute_path_with_priority
  by_cases hemp : (allSimplePaths st.topology a b).isEmpty
  · rw [if_pos hemp]
    have hpp : pairPath st.topology st.traffic st.link_utilization a b = none := by
      unfold pairPath
      rw [if_pos hemp]
    rw [hpp] at hsetid
    simp only [hsetid]
  · have hpp : pairPath st.topology st.traffic st.link_utilization a b =
        some (choosePath st.topology st.traffic st.link_utilization a b) := by
      unfold pairPath
      rw [if_neg hemp]
    rw [hpp] at hsetid
    rw [if_neg hemp]
    simp only [hsetid]
    by_cases hlen : 1 < (allSimplePaths st.topology a b).length
    · simp only [hlen, ite_true]
      have hdb : dinsert st.backup_paths (a, b)
          ((allSimplePaths st.topology a b).filter (fun p =>
            p ≠ choosePath st.topology st.traffic st.link_utilization a b)) =
          st.backup_paths :=
        dinsert_id _ _ _ (hbk hlen)
      rw [hdb]
    · simp only [hlen, ite_false]

theorem computeFold_id : ∀ (l : List (Node × Node)) (st : SDNController),
    (∀ p ∈ l, _compute_path_with_priority st p.1 p.2 = .ok st) →
    computeFold l st = .ok st := by
  intro l
  induction l with
  | nil => intro st _; rfl
  | cons p rest ih =>
    intro st hall
    obtain ⟨x, y⟩ := p
    unfold computeFold
    simp only [hall (x, y) (List.mem_cons_self _ _)]
    exact ih st (fun q hq => hall q (List.mem_cons_of_mem _ hq))

theorem compute_paths_stable {st st1 : SDNController}
    (h1 : compute_paths st = .ok st1) : compute_paths st1 = .ok st1 := by
  obtain ⟨htop, htr, hu⟩ := computeFold_frame _ _ _ h1
  unfold compute_paths
  rw [htop]
  apply computeFold_id
  intro p hp
  obtain ⟨a, b⟩ := p
  apply compute_pair_id
  · have hf := computeFold_flow _ _ _ h1 a b
    rw [if_pos hp] at hf
    rw [hf, ← htop, ← htr, ← hu]
  · intro hlen
    rw [htop] at hlen
    have hb := computeFold_backup _ _ _ h1 (a, b)
    rw [if_pos ⟨hp, hlen⟩] at hb
    rw [hb, ← htop, ← htr, ← hu]

/-! ### Symmetry of the directed utilization counters -/

theorem dlookup_dinsert2 {α β : Type} [DecidableEq α] (m : List (α × β)) (k1 k2 kq : α)
    (c : β) : dlookup (dinsert (dinsert m k1 c) k2 c) kq =
      if kq = k2 then some c else if kq = k1 then some c else dlookup m kq := by
  by_cases h2 : kq = k2
  · subst h2
    rw [dlookup_dinsert_self, if_pos rfl]
  · rw [dlookup_dinsert_ne _ _ _ _ h2, if_neg h2]
    by_cases h1 : kq = k1
    · subst h1
      rw [dlookup_dinsert_self, if_pos rfl]
    · rw [dlookup_dinsert_ne _ _ _ _ h1, if_neg h1]

theorem dlookup_dpop2 {α β : Type} [DecidableEq α] (m : List (α × β)) (k1 k2 kq : α)
    (hnd : (m.map Prod.fst).Nodup) :
    dlookup (dpop (dpop m k1) k2) kq =
      if kq = k2 then none else if kq = k1 then none else dlookup m kq := by
  have hnd1 : (((dpop m k1).map Prod.fst)).Nodup := hnd.sublist (dpop_keys_sublist m k1)
  by_cases h2 : kq = k2
  · subst h2
    rw [dlookup_dpop_self _ _ hnd1, if_pos rfl]
  · rw [dlookup_dpop_ne _ _ _ h2, if_neg h2]
    by_cases h1 : kq = k1
    · subst h1
      rw [dlookup_dpop_self _ _ hnd, if_pos rfl]
    · rw [dlookup_dpop_ne _ _ _ h1, if_neg h1]

theorem pair_swap_eq_iff {x y u v : Node} : ((x, y) = (u, v)) ↔ ((y, x) = (v, u)) := by
  simp only [Prod.mk.injEq]
  constructor
  · rintro ⟨h1, h2⟩
    exact ⟨h2, h1⟩
  · rintro ⟨h1, h2⟩
    exact ⟨h2, h1⟩

theorem dinsert_pair_sym {m : UtilMap} {u v : Node} {c : Nat}
    (hsym : ∀ x y : Node, dlookup m (x, y) = dlookup m (y, x)) :
    ∀ x y : Node, dlookup (dinsert (dinsert m (u, v) c) (v, u) c) (x, y) =
      dlookup (dinsert (dinsert m (u, v) c) (v, u) c) (y, x) := by
  intro x y
  rw [dlookup_dinsert2, dlookup_dinsert2]
  by_cases h1 : (x, y) = (v, u)
  · rw [if_pos h1]
    by_cases h1' : (y, x) = (v, u)
    · rw [if_pos h1']
    · rw [if_neg h1', if_pos (pair_swap_eq_iff.mp h1)]
  · rw [if_neg h1]
    by_cases h2 : (x, y) = (u, v)
    · rw [if_pos h2, if_pos (pair_swap_eq_iff.mp h2)]
    · rw [if_neg h2,
        if_neg (fun hh => h2 (pair_swap_eq_iff.mpr hh)),
        if_neg (fun hh => h1 (pair_swap_eq_iff.mpr hh))]
      exact hsym x y

theorem dpop_pair_sym {m : UtilMap} {u v : Node}
    (hnd : (m.map Prod.fst).Nodup)
    (hsym : ∀ x y : Node, dlookup m (x, y) = dlookup m (y, x)) :
    ∀ x y : Node, dlookup (dpop (dpop m (u, v)) (v, u)) (x, y) =
      dlookup (dpop (dpop m (u, v)) (v, u)) (y, x) := by
  intro x y
  rw [dlookup_dpop2 _ _ _ _ hnd, dlookup_dpop2 _ _ _ _ hnd]
  by_cases h1 : (x, y) = (v, u)
  · rw [if_pos h1]
    by_cases h1' : (y, x) = (v, u)
    · rw [if_pos h1']
    · rw [if_neg h1', if_pos (pair_swap_eq_iff.mp h1)]
  · rw [if_neg h1]
    by_cases h2 : (x, y) = (u, v)
    · rw [if_pos h2, if_pos (pair_swap_eq_iff.mp h2)]
    · rw [if_neg h2,
        if_neg (fun hh => h2 (pair_swap_eq_iff.mpr hh)),
        if_neg (fun hh => h1 (pair_swap_eq_iff.mpr hh))]
      exact hsym x y

theorem incrBoth_inv {m m' : UtilMap} {a b : Node}
    (hnd : (m.map Prod.fst).Nodup)
    (hsym : ∀ x y : Node, dlookup m (x, y) = dlookup m (y, x))
    (h : incrBoth m a b = .ok m') :
    ((m'.map Prod.fst).Nodup) ∧
      ∀ x y : Node, dlookup m' (x, y) = dlookup m' (y, x) := by
  unfold incrBoth at h
  cases h1 : dlookup m (a, b) with
  | none => rw [h1] at h; exact absurd h (by simp)
  | some n =>
    by_cases hab : a = b
    · subst hab
      have h2 : dlookup (dinsert m (a, a) (n + 1)) (a, a) = some (n + 1) :=
        dlookup_dinsert_self _ _ _
      simp only [h1, h2, Except.ok.injEq] at h
      rw [← h]
      refine ⟨dinsert_keys_nodup _ _ _ (dinsert_keys_nodup _ _ _ hnd), ?_⟩
      intro x y
      by_cases hxy : (x, y) = (a, a)
      · have hx : x = a := congrArg Prod.fst hxy
        have hy : y = a := congrArg Prod.snd hxy
        subst hx
        subst hy
        rfl
      · have hyx : (y, x) ≠ (a, a) := fun hh => hxy (pair_swap_eq_iff.mpr hh)
        rw [dlookup_dinsert_ne _ _ _ _ hxy, dlookup_dinsert_ne _ _ _ _ hxy,
          dlookup_dinsert_ne _ _ _ _ hyx, dlookup_dinsert_ne _ _ _ _ hyx]
        exact hsym x y
    · have hba : ((b, a) : Node × Node) ≠ (a, b) := fun hh =>
        hab (congrArg Prod.snd hh)
      have h2 : dlookup (dinsert m (a, b) (n + 1)) (b, a) = some n := by
        rw [dlookup_dinsert_ne _ _ _ _ hba, ← hsym a b, h1]
      simp only [h1, h2, Except.ok.injEq] at h
      rw [← h]
      refine ⟨dinsert_keys_nodup _ _ _ (dinsert_keys_nodup _ _ _ hnd), ?_⟩
      intro x y
      rw [dlookup_dinsert2, dlookup_dinsert2]
      by_cases hx1 : (x, y) = (b, a)
      · rw [if_pos hx1]
        by_cases hx1' : (y, x) = (b, a)
        · rw [if_pos hx1']
        · rw [if_neg hx1', if_pos (pair_swap_eq_iff.mp hx1)]
      · rw [if_neg hx1]
        by_cases hx2 : (x, y) = (a, b)
        · rw [if_pos hx2, if_pos (pair_swap_eq_iff.mp hx2)]
        · rw [if_neg hx2,
            if_neg (fun hh => hx2 (pair_swap_eq_iff.mpr hh)),
            if_neg (fun hh => hx1 (pair_swap_eq_iff.mpr hh))]
          exact hsym x y

theorem incrPath_inv : ∀ (p : List Node) (m m' : UtilMap),
    (m.map Prod.fst).Nodup →
    (∀ x y : Node, dlookup m (x, y) = dlookup m (y, x)) →
    incrPath m p = .ok m' →
    ((m'.map Prod.fst).Nodup) ∧
      ∀ x y : Node, dlookup m' (x, y) = dlookup m' (y, x) := by
  intro p
  induction p with
  | nil =>
    intro m m' hnd hsym h
    simp only [incrPath, Except.ok.injEq] at h
    rw [← h]
    exact ⟨hnd, hsym⟩
  | cons a rest ih =>
    intro m m' hnd hsym h
    cases rest with
    | nil =>
      simp only [incrPath, Except.ok.injEq] at h
      rw [← h]
      exact ⟨hnd, hsym⟩
    | cons b rest' =>
      unfold incrPath at h
      cases hib : incrBoth m a b with
      | error e => rw [hib] at h; exact absurd h (by simp)
      | ok m1 =>
        rw [hib] at h
        obtain ⟨hnd1, hsym1⟩ := incrBoth_inv hnd hsym hib
        exact ih m1 m' hnd1 hsym1 h

/-- The internal invariant of the Utilization Tracker: no duplicate
directed-pair keys, and the two directed counters of a pair agree. -/
def UtilInv (st : SDNController) : Prop :=
  ((st.link_utilization.map Prod.fst).Nodup) ∧
    ∀ a b : Node, dlookup st.link_utilization (a, b) = dlookup st.link_utilization (b, a)

theorem inject_util_inv {st : SDNController} {src dst : Node} {ty : String}
    {r : InjectReport} {st' : SDNController}
    (h : inject_flow st src dst ty = .ok (r, st')) (hinv : UtilInv st) : UtilInv st' := by
  obtain ⟨hnd, hsym⟩ := hinv
  simp only [inject_flow] at h
  cases hl : dlookup ((dlookup st.flow_tables src).getD []) dst with
  | none =>
    rw [hl] at h
    simp only [Except.ok.injEq, Prod.mk.injEq] at h
    rw [← h.2]
    exact ⟨hnd, hsym⟩
  | some pathOpt =>
    rw [hl] at h
    cases pathOpt with
    | none =>
      simp only [Except.ok.injEq, Prod.mk.injEq] at h
      rw [← h.2]
      exact ⟨hnd, hsym⟩
    | some path =>
      by_cases hpe : path.isEmpty
      · simp only [hpe, ite_true, Except.ok.injEq, Prod.mk.injEq] at h
        rw [← h.2]
        exact ⟨hnd, hsym⟩
      · simp only [hpe, Bool.false_eq_true, ite_false] at h
        cases hic : incrPath st.link_utilization path with
        | error e => rw [hic] at h; exact absurd h (by simp)
        | ok util =>
          rw [hic] at h
          simp only [Except.ok.injEq, Prod.mk.injEq] at h
          obtain ⟨hn, hs⟩ := incrPath_inv path st.link_utilization util hnd hsym hic
          rw [← h.2]
          exact ⟨hn, hs⟩

theorem rerouteFold_util_inv : ∀ (l : List (Node × Node)) (st st' : SDNController),
    rerouteFold l st = .ok st' → UtilInv st → UtilInv st' := by
  intro l
  induction l with
  | nil =>
    intro st st' h hinv
    simp only [rerouteFold, Except.ok.injEq] at h
    rw [← h]
    exact hinv
  | cons p rest ih =>
    intro st st' h hinv
    obtain ⟨src, dst⟩ := p
    obtain ⟨hnd, hsym⟩ := hinv
    unfold rerouteFold at h
    cases hbk : dlookup st.backup_paths (src, dst) with
    | none =>
      simp only [hbk] at h
      cases hsf : setFlow st.flow_tables src dst none with
      | error e => rw [hsf] at h; exact absurd h (by simp)
      | ok ft =>
        rw [hsf] at h
        exact ih _ _ h ⟨hnd, hsym⟩
    | some bl =>
      cases bl with
      | nil =>
        simp only [hbk] at h
        cases hsf : setFlow st.flow_tables src dst none with
        | error e => rw [hsf] at h; exact absurd h (by simp)
        | ok ft =>
          rw [hsf] at h
          exact ih _ _ h ⟨hnd, hsym⟩
      | cons backup more =>
        simp only [hbk] at h
        cases hsf : setFlow st.flow_tables src dst (some backup) with
        | error e =>
          simp only [hsf] at h
          exact absurd h (by simp)
        | ok ft =>
          simp only [hsf] at h
          cases hic : incrPath st.link_utilization backup with
          | error e =>
            simp only [hic] at h
            exact absurd h (by simp)
          | ok util =>
            simp only [hic] at h
            obtain ⟨hn, hs⟩ := incrPath_inv backup st.link_utilization util hnd hsym hic
            exact ih _ _ h ⟨hn, hs⟩

theorem remove_link_util_inv {st st' : SDNController} {u v : Node}
    (h : remove_link st u v = .ok st') (hinv : UtilInv st) : UtilInv st' := by
  obtain ⟨hnd, hsym⟩ := hinv
  unfold remove_link at h
  by_cases he : st.topology.hasEdge u v
  · simp only [he, ite_true] at h
    unfold _handle_link_failure at h
    refine rerouteFold_util_inv _ _ _ h ⟨?_, ?_⟩
    · exact (hnd.sublist (dpop_keys_sublist _ _)).sublist (dpop_keys_sublist _ _)
    · exact dpop_pair_sym hnd hsym
  · simp only [he, Bool.false_eq_true, ite_false, Except.ok.injEq] at h
    rw [← h]
    exact ⟨hnd, hsym⟩

theorem step_util_inv {st st' : SDNController} (h : EngineStep st st')
    (hinv : UtilInv st) : UtilInv st' := by
  cases h with
  | add_node n => exact hinv
  | add_link u v w c =>
    obtain ⟨hnd, hsym⟩ := hinv
    exact ⟨dinsert_keys_nodup _ _ _ (dinsert_keys_nodup _ _ _ hnd),
      dinsert_pair_sym hsym⟩
  | remove_link u v st2 hrl => exact remove_link_util_inv hrl hinv
  | inject_flow src dst ty r st2 hif => exact inject_util_inv hif hinv
  | compute_paths st2 hcp =>
    obtain ⟨hnd, hsym⟩ := hinv
    have hu := (computeFold_frame _ _ _ hcp).2.2
    constructor
    · rw [hu]
      exact hnd
    · intro a b
      rw [hu]
      exact hsym a b

theorem reachable_util_inv {st : SDNController} (h : Reachable st) : UtilInv st := by
  induction h with
  | init => exact ⟨List.nodup_nil, fun a b => rfl⟩
  | step hre hstep ih => exact step_util_inv hstep ih

/-! ### Concrete scenario states -/

/-- Triangle topology A-B, A-C, B-C (all weight 1, capacity 100). -/
def triState : SDNController :=
  add_link (add_link (add_link (add_nodes initController ["A", "B", "C"])
    "A" "B" 1 100) "A" "C" 1 100) "B" "C" 1 100

/-- The triangle after one path computation and removal of link B-C. -/
def c4Removed : SDNController := afterRemove (afterCompute triState) "B" "C"

/-- State `c4Removed` after a second path computation. -/
def c4Recomputed : SDNController := afterCompute c4Removed

/-- Diamond topology A-B, B-C, B-D, D-C. -/
def diamondState : SDNController :=
  add_link (add_link (add_link (add_link (add_nodes initController ["A", "B", "C", "D"])
    "A" "B" 1 100) "B" "C" 1 100) "B" "D" 1 100) "D" "C" 1 100

/-- The diamond after one path computation. -/
def diamondComputed : SDNController := afterCompute diamondState

/-- Triangle with weights 1, 1, 5 and critical traffic injected for (A, C). -/
def critState : SDNController :=
  afterInject (add_link (add_link (add_link (add_nodes initController ["A", "B", "C"])
    "A" "B" 1 10) "B" "C" 1 10) "A" "C" 5 10) "A" "C" "critical"

/-- State `critState` after path computation. -/
def critComputed : SDNController := afterCompute critState

/-- The triangle with important (non-critical) traffic injected for (A, C). -/
def impState : SDNController := afterInject triState "A" "C" "important"

/-- State `impState` after path computation. -/
def impComputed : SDNController := afterCompute impState

/-- Path topology A-B, B-C, computed (installs [A, B, C] for (A, C)). -/
def lineComputed : SDNController :=
  afterCompute (add_link (add_link (add_nodes initController ["A", "B", "C"])
    "A" "B" 1 10) "B" "C" 1 10)

/-- Two isolated nodes, no computation run. -/
def c3Base : SDNController := add_nodes initController ["A", "B"]

/-- State `c3Base` after injecting a flow for the never-computed pair (A, B). -/
def c3After : SDNController := afterInject c3Base "A" "B" "default"

/-- Two nodes with one link, computed. -/
def c9Base : SDNController :=
  afterCompute (add_link (add_nodes initController ["A", "B"]) "A" "B" 1 100)

/-! ### Claim C3 -/

/-- C3 counterexample: injecting a flow for a pair never processed by
path computation reports missing routing information but does NOT leave
the entire engine state unchanged — the traffic descriptor for the pair
is recorded. -/
theorem C3_counterexample :
    inject_flow c3Base "A" "B" "default" = .ok (InjectReport.noRoute, c3After) ∧
    c3After.traffic ≠ c3Base.traffic := by decide

/-- C3 (amended): for a pair with no Flow Table entry, `inject_flow`
reports missing routing information and leaves the topology, flow
tables, backup paths and utilization counters unchanged, but records
the traffic descriptor for (src, dst). -/
theorem C3_inject_noroute_state (st : SDNController) (src dst : Node) (ty : String)
    (h : dlookup ((dlookup st.flow_tables src).getD []) dst = none) :
    inject_flow st src dst ty = .ok (InjectReport.noRoute,
      { st with traffic := (dinsert st.traffic (src, dst)
          (TrafficInfo.mk ty ((dlookup priority_map (str_lower ty)).getD 1))) }) := by
  simp only [inject_flow, h]

/-- Witness for C3: the amended statement applied to the concrete
two-node state with no computed routes. -/
theorem C3_witness :
    inject_flow c3Base "A" "B" "default" = .ok (InjectReport.noRoute,
      { c3Base with traffic := (dinsert c3Base.traffic ("A", "B")
          (TrafficInfo.mk "default" ((dlookup priority_map (str_lower "default")).getD 1))) }) :=
  C3_inject_noroute_state c3Base "A" "B" "default" (by decide)

/-! ### Claim C9 -/

/-- C9 counterexample: `add_node` on an existing node is NOT idempotent —
it wipes the node's flow-table destination map. -/
theorem C9_counterexample :
    add_node c9Base "A" ≠ c9Base ∧
    dlookup c9Base.flow_tables "A" = some [("B", some ["A", "B"])] ∧
    dlookup (add_node c9Base "A").flow_tables "A" = some [] := by decide

/-- C9 (amended): adding an existing node leaves the topology, traffic
descriptors, utilization counters and backup paths unchanged, but
resets that node's flow-table destination map to empty (so the whole
state is unchanged only when that map was already empty). -/
theorem C9_add_node_existing (st : SDNController) (n : Node)
    (h : n ∈ st.topology.nodes) :
    (add_node st n).topology = st.topology ∧
    (add_node st n).traffic = st.traffic ∧
    (add_node st n).link_utilization = st.link_utilization ∧
    (add_node st n).backup_paths = st.backup_paths ∧
    (add_node st n).flow_tables = dinsert st.flow_tables n [] := by
  unfold add_node Topology.addNode
  rw [if_pos h]
  exact ⟨rfl, rfl, rfl, rfl, rfl⟩

/-- Witness for C9: the amended statement applied to the computed
two-node state. -/
theorem C9_witness :
    (add_node c9Base "A").topology = c9Base.topology ∧
    (add_node c9Base "A").traffic = c9Base.traffic ∧
    (add_node c9Base "A").link_utilization = c9Base.link_utilization ∧
    (add_node c9Base "A").backup_paths = c9Base.backup_paths ∧
    (add_node c9Base "A").flow_tables = dinsert c9Base.flow_tables "A" [] :=
  C9_add_node_existing c9Base "A" (by decide)

/-! ### Claim C4 -/

/-- C4 counterexample: after computing paths on the triangle and
removing link B-C, a second `compute_paths` run leaves the pre-existing
Backup Path Set entry for (A, B) in place — the stale backup [A, C, B]
survives although only one simple path now exists for the pair and the
path's edge C-B is no longer in the topology, so the entry is neither
overwritten nor determined by the current topology, traffic and
utilization. -/
theorem C4_counterexample :
    dlookup c4Removed.backup_paths ("A", "B") = some [["A", "C", "B"]] ∧
    compute_paths c4Removed = .ok c4Recomputed ∧
    dlookup c4Recomputed.backup_paths ("A", "B") = some [["A", "C", "B"]] ∧
    (allSimplePaths c4Removed.topology "A" "B").length = 1 ∧
    c4Removed.topology.hasEdge "C" "B" = false := by decide

/-- C4 (amended): after `compute_paths`, the Flow Table entry of every
ordered pair of distinct topology nodes is overwritten with a value
fully determined by the current topology, traffic descriptors and
utilization counters; the Backup Path Set entry is so overwritten only
for pairs with more than one simple path — a pair with at most one
simple path retains whatever backup entry it had before the call. -/
theorem C4_compute_overwrites {st st' : SDNController} {a b : Node}
    (hrun : compute_paths st = .ok st') (hab : (a, b) ∈ pairList st.topology) :
    lookupFlow st'.flow_tables a b =
      some (pairPath st.topology st.traffic st.link_utilization a b) ∧
    (1 < (allSimplePaths st.topology a b).length →
      dlookup st'.backup_paths (a, b) =
        some (pairAlts st.topology st.traffic st.link_utilization a b)) ∧
    ((allSimplePaths st.topology a b).length ≤ 1 →
      dlookup st'.backup_paths (a, b) = dlookup st.backup_paths (a, b)) := by
  refine ⟨?_, ?_, ?_⟩
  · have hf := computeFold_flow _ _ _ hrun a b
    rw [if_pos hab] at hf
    exact hf
  · intro hlen
    have hb := computeFold_backup _ _ _ hrun (a, b)
    rw [if_pos ⟨hab, hlen⟩] at hb
    exact hb
  · intro hlen
    have hb := computeFold_backup _ _ _ hrun (a, b)
    rw [if_neg (fun hco => Nat.not_lt.mpr hlen hco.2)] at hb
    exact hb

/-- Witness for C4: the amended statement applied to the triangle and
the pair (A, C). -/
theorem C4_witness :
    lookupFlow (afterCompute triState).flow_tables "A" "C" =
      some (pairPath triState.topology triState.traffic triState.link_utilization "A" "C") ∧
    (1 < (allSimplePaths triState.topology "A" "C").length →
      dlookup (afterCompute triState).backup_paths ("A", "C") =
        some (pairAlts triState.topology triState.traffic triState.link_utilization "A" "C")) ∧
    ((allSimplePaths triState.topology "A" "C").length ≤ 1 →
      dlookup (afterCompute triState).backup_paths ("A", "C") =
        dlookup triState.backup_paths ("A", "C")) :=
  C4_compute_overwrites (by decide) (by decide)

/-! ### Claims C2 and C5 -/

/-- C2: on the diamond, link A-B lies on the installed path [A, B, C]
for (A, C) and the Backup Path Set for (A, C) is non-empty, yet
`remove_link A B` does not install a link-avoiding path — the queued
backup [A, B, D, C] itself traverses the removed link, and rerouting
onto it raises an uncaught `KeyError` on the deleted utilization
counter (A, B). -/
theorem C2_remove_link_raises :
    lookupFlow diamondComputed.flow_tables "A" "C" = some (some ["A", "B", "C"]) ∧
    pathUsesLink "A" "B" ["A", "B", "C"] = true ∧
    dlookup diamondComputed.backup_paths ("A", "C") = some [["A", "B", "D", "C"]] ∧
    pathUsesLink "A" "B" ["A", "B", "D", "C"] = true ∧
    remove_link diamondComputed "A" "B" = .error "KeyError" := by decide

/-- C5: `remove_link` on the reachable diamond state aborts with an
uncaught `KeyError` (incrementing a deleted utilization counter while
installing a stale backup), so not every public operation surfaces its
error conditions as reports. -/
theorem C5_remove_link_uncaught_keyerror :
    diamondComputed.topology.hasEdge "A" "B" = true ∧
    remove_link diamondComputed "A" "B" = .error "KeyError" := by decide

/-! ### Claim C1 -/

/-- C1: for every topology with non-negative edge weights and every
ordered pair (src, dst) whose traffic descriptor has critical priority
(rank 3), the path installed in the Flow Table by `compute_paths` has
total edge weight less than or equal to the total edge weight of every
other simple path between src and dst. -/
theorem C1_critical_path_min_weight {st st' : SDNController} {src dst : Node}
    {ti : TrafficInfo} {p q : List Node}
    (hwf : st.topology.Wf)
    (hnn : ∀ e ∈ st.topology.edges, 0 ≤ e.weight)
    (hsrc : src ∈ st.topology.nodes) (hdst : dst ∈ st.topology.nodes)
    (hne : src ≠ dst)
    (hti : dlookup st.traffic (src, dst) = some ti) (hcrit : ti.priority = 3)
    (hrun : compute_paths st = .ok st')
    (hlook : lookupFlow st'.flow_tables src dst = some (some p))
    (hq : isSimplePath st.topology src dst q) :
    pathWeight st.topology p ≤ pathWeight st.topology q := by
  have hmemq := allSimplePaths_complete hwf hne hq
  have hnenil : allSimplePaths st.topology src dst ≠ [] := by
    intro hh
    rw [hh] at hmemq
    exact (List.not_mem_nil q) hmemq
  have hemp : ¬ (allSimplePaths st.topology src dst).isEmpty = true := by
    rw [List.isEmpty_iff]
    exact hnenil
  have hf := computeFold_flow _ _ _ hrun src dst
  rw [if_pos (pairList_mem.mpr ⟨hsrc, hdst, hne⟩)] at hf
  rw [hf] at hlook
  have hcp : choosePath st.topology st.traffic st.link_utilization src dst =
      shortest_path st.topology src dst := by
    unfold choosePath
    rw [hti]
    simp only [Option.getD_some]
    have h3 : (dlookup priority_map "critical").getD 0 = 3 := by decide
    rw [h3, if_pos hcrit]
  have hpp : pairPath st.topology st.traffic st.link_utilization src dst =
      some (shortest_path st.topology src dst) := by
    unfold pairPath
    rw [if_neg hemp, hcp]
  rw [hpp] at hlook
  simp only [Option.some.injEq] at hlook
  rw [← hlook]
  unfold shortest_path
  exact selectMinBy_min (pathWeight st.topology) _ hnenil q hmemq

/-- Witness for C1: in a triangle with weights A-B = 1, B-C = 1,
A-C = 5 and critical traffic for (A, C), the installed path [A, B, C]
(weight 2) weighs no more than the simple path [A, C] (weight 5). -/
theorem C1_witness :
    pathWeight critState.topology ["A", "B", "C"] ≤
      pathWeight critState.topology ["A", "C"] :=
  @C1_critical_path_min_weight critState critComputed "A" "C"
    (TrafficInfo.mk "critical" 3) ["A", "B", "C"] ["A", "C"]
    (by decide) (by decide) (by decide) (by decide) (by decide)
    (by decide) (by decide) (by decide) (by decide) (by decide)

/-! ### Claim C6 -/

/-- C6: for every ordered pair (src, dst) whose traffic descriptor
priority is not critical, the path installed by `compute_paths` has
total utilization (sum of the current directed utilization counters
over consecutive node pairs, missing counters counting as 0) less than
or equal to that of every other simple path between src and dst, and
among minimal paths it is the first one in enumeration order. -/
theorem C6_loadbalanced_path_min_util {st st' : SDNController} {src dst : Node}
    {ti : TrafficInfo} {p q : List Node}
    (hwf : st.topology.Wf)
    (hsrc : src ∈ st.topology.nodes) (hdst : dst ∈ st.topology.nodes)
    (hne : src ≠ dst)
    (hti : dlookup st.traffic (src, dst) = some ti) (hncrit : ti.priority ≠ 3)
    (hrun : compute_paths st = .ok st')
    (hlook : lookupFlow st'.flow_tables src dst = some (some p))
    (hq : isSimplePath st.topology src dst q) :
    pathUtilization st.link_utilization p ≤ pathUtilization st.link_utilization q ∧
    ∃ l₁ l₂, allSimplePaths st.topology src dst = l₁ ++ p :: l₂ ∧
      ∀ r ∈ l₁, pathUtilization st.link_utilization p <
        pathUtilization st.link_utilization r := by
  have hmemq := allSimplePaths_complete hwf hne hq
  have hnenil : allSimplePaths st.topology src dst ≠ [] := by
    intro hh
    rw [hh] at hmemq
    exact (List.not_mem_nil q) hmemq
  have hemp : ¬ (allSimplePaths st.topology src dst).isEmpty = true := by
    rw [List.isEmpty_iff]
    exact hnenil
  have hf := computeFold_flow _ _ _ hrun src dst
  rw [if_pos (pairList_mem.mpr ⟨hsrc, hdst, hne⟩)] at hf
  rw [hf] at hlook
  have hcp : choosePath st.topology st.traffic st.link_utilization src dst =
      selectMinBy (pathUtilization st.link_utilization)
        (allSimplePaths st.topology src dst) := by
    unfold choosePath
    rw [hti]
    simp only [Option.getD_some]
    have h3 : (dlookup priority_map "critical").getD 0 = 3 := by decide
    rw [h3, if_neg hncrit]
    rfl
  have hpp : pairPath st.topology st.traffic st.link_utilization src dst =
      some (selectMinBy (pathUtilization st.link_utilization)
        (allSimplePaths st.topology src dst)) := by
    unfold pairPath
    rw [if_neg hemp, hcp]
  rw [hpp] at hlook
  simp only [Option.some.injEq] at hlook
  rw [← hlook]
  obtain ⟨l₁, l₂, hdec, hmin, hfirst⟩ :=
    selectMinBy_spec (pathUtilization st.link_utilization) _ hnenil
  exact ⟨hmin q hmemq, l₁, l₂, hdec, hfirst⟩

/-- Witness for C6: in the triangle with important traffic for (A, C)
and all counters 0, the installed path [A, B, C] has utilization no
larger than the simple path [A, C], and it is the first minimal path in
enumeration order. -/
theorem C6_witness :
    pathUtilization impState.link_utilization ["A", "B", "C"] ≤
      pathUtilization impState.link_utilization ["A", "C"] ∧
    ∃ l₁ l₂, allSimplePaths impState.topology "A" "C" = l₁ ++ ["A", "B", "C"] :: l₂ ∧
      ∀ r ∈ l₁, pathUtilization impState.link_utilization ["A", "B", "C"] <
        pathUtilization impState.link_utilization r :=
  @C6_loadbalanced_path_min_util impState impComputed "A" "C"
    (TrafficInfo.mk "important" 2) ["A", "B", "C"] ["A", "C"]
    (by decide) (by decide) (by decide) (by decide) (by decide)
    (by decide) (by decide) (by decide) (by decide)

/-! ### Claim C7 -/

/-- C7: when the Flow Table holds the path [A, B, C] for (src, dst) and
utilization counters exist for its edges, `inject_flow` increments the
directed counters (A,B), (B,A), (B,C) and (C,B) each by exactly 1 and
changes no other utilization counter. -/
theorem C7_inject_increments_exactly {st : SDNController} {src dst A B C : Node}
    {ty : String} {nAB nBA nBC nCB : Nat}
    (hAB : A ≠ B) (hBC : B ≠ C) (hAC : A ≠ C)
    (hpath : dlookup ((dlookup st.flow_tables src).getD []) dst = some (some [A, B, C]))
    (h1 : dlookup st.link_utilization (A, B) = some nAB)
    (h2 : dlookup st.link_utilization (B, A) = some nBA)
    (h3 : dlookup st.link_utilization (B, C) = some nBC)
    (h4 : dlookup st.link_utilization (C, B) = some nCB) :
    ∃ st', inject_flow st src dst ty = .ok (.routed [A, B, C], st') ∧
      dlookup st'.link_utilization (A, B) = some (nAB + 1) ∧
      dlookup st'.link_utilization (B, A) = some (nBA + 1) ∧
      dlookup st'.link_utilization (B, C) = some (nBC + 1) ∧
      dlookup st'.link_utilization (C, B) = some (nCB + 1) ∧
      ∀ k : Node × Node, k ≠ (A, B) → k ≠ (B, A) → k ≠ (B, C) → k ≠ (C, B) →
        dlookup st'.link_utilization k = dlookup st.link_utilization k := by
  have nBAAB : ((B, A) : Node × Node) ≠ (A, B) := fun hh => hAB (congrArg Prod.snd hh)
  have nBCAB : ((B, C) : Node × Node) ≠ (A, B) := fun hh => hAB (show A = B from (congrArg Prod.fst hh).symm)
  have nBCBA : ((B, C) : Node × Node) ≠ (B, A) := fun hh => hAC (show A = C from (congrArg Prod.snd hh).symm)
  have nCBAB : ((C, B) : Node × Node) ≠ (A, B) := fun hh => hAC (show A = C from (congrArg Prod.fst hh).symm)
  have nCBBA : ((C, B) : Node × Node) ≠ (B, A) := fun hh => hBC (show B = C from (congrArg Prod.fst hh).symm)
  have nCBBC : ((C, B) : Node × Node) ≠ (B, C) := fun hh => hBC (show B = C from (congrArg Prod.fst hh).symm)
  have nABBA : ((A, B) : Node × Node) ≠ (B, A) := fun hh => hAB (congrArg Prod.fst hh)
  have nABBC : ((A, B) : Node × Node) ≠ (B, C) := fun hh => hAB (congrArg Prod.fst hh)
  have nABCB : ((A, B) : Node × Node) ≠ (C, B) := fun hh => hAC (show A = C from congrArg Prod.fst hh)
  have nBABC : ((B, A) : Node × Node) ≠ (B, C) := fun hh => hAC (congrArg Prod.snd hh)
  have nBACB : ((B, A) : Node × Node) ≠ (C, B) := fun hh => hBC (show B = C from congrArg Prod.fst hh)
  have nBCCB : ((B, C) : Node × Node) ≠ (C, B) := fun hh => hBC (congrArg Prod.fst hh)
  have hlBA : dlookup (dinsert st.link_utilization (A, B) (nAB + 1)) (B, A) =
      some nBA := by
    rw [dlookup_dinsert_ne _ _ _ _ nBAAB, h2]
  have hlBC : dlookup (dinsert (dinsert st.link_utilization (A, B) (nAB + 1))
      (B, A) (nBA + 1)) (B, C) = some nBC := by
    rw [dlookup_dinsert_ne _ _ _ _ nBCBA, dlookup_dinsert_ne _ _ _ _ nBCAB, h3]
  have hlCB : dlookup (dinsert (dinsert (dinsert st.link_utilization (A, B) (nAB + 1))
      (B, A) (nBA + 1)) (B, C) (nBC + 1)) (C, B) = some nCB := by
    rw [dlookup_dinsert_ne _ _ _ _ nCBBC, dlookup_dinsert_ne _ _ _ _ nCBBA,
      dlookup_dinsert_ne _ _ _ _ nCBAB, h4]
  have hip : incrPath st.link_utilization [A, B, C] =
      .ok (dinsert (dinsert (dinsert (dinsert st.link_utilization (A, B) (nAB + 1))
        (B, A) (nBA + 1)) (B, C) (nBC + 1)) (C, B) (nCB + 1)) := by
    simp only [incrPath, incrBoth, h1, hlBA, hlBC, hlCB]
  refine ⟨{ st with
      traffic := (dinsert st.traffic (src, dst)
        (TrafficInfo.mk ty ((dlookup priority_map (str_lower ty)).getD 1)))
      link_utilization := (dinsert (dinsert (dinsert (dinsert st.link_utilization
        (A, B) (nAB + 1)) (B, A) (nBA + 1)) (B, C) (nBC + 1)) (C, B) (nCB + 1)) },
    ?_, ?_, ?_, ?_, ?_, ?_⟩
  · simp only [inject_flow, hpath, List.isEmpty_cons, Bool.false_eq_true, ite_false, hip]
  · rw [dlookup_dinsert_ne _ _ _ _ nABCB, dlookup_dinsert_ne _ _ _ _ nABBC,
      dlookup_dinsert_ne _ _ _ _ nABBA, dlookup_dinsert_self]
  · rw [dlookup_dinsert_ne _ _ _ _ nBACB, dlookup_dinsert_ne _ _ _ _ nBABC,
      dlookup_dinsert_self]
  · rw [dlookup_dinsert_ne _ _ _ _ nBCCB, dlookup_dinsert_self]
  · rw [dlookup_dinsert_self]
  · intro k hk1 hk2 hk3 hk4
    rw [dlookup_dinsert_ne _ _ _ _ hk4, dlookup_dinsert_ne _ _ _ _ hk3,
      dlookup_dinsert_ne _ _ _ _ hk2, dlookup_dinsert_ne _ _ _ _ hk1]

/-- Witness for C7: on the computed path topology A-B-C, injecting a
flow for (A, C) routed via [A, B, C] increments exactly the four
directed counters, all from 0 to 1. -/
theorem C7_witness :
    ∃ st', inject_flow lineComputed "A" "C" "default" =
        .ok (.routed ["A", "B", "C"], st') ∧
      dlookup st'.link_utilization ("A", "B") = some (0 + 1) ∧
      dlookup st'.link_utilization ("B", "A") = some (0 + 1) ∧
      dlookup st'.link_utilization ("B", "C") = some (0 + 1) ∧
      dlookup st'.link_utilization ("C", "B") = some (0 + 1) ∧
      ∀ k : Node × Node, k ≠ ("A", "B") → k ≠ ("B", "A") → k ≠ ("B", "C") →
        k ≠ ("C", "B") →
        dlookup st'.link_utilization k = dlookup lineComputed.link_utilization k :=
  @C7_inject_increments_exactly lineComputed "A" "C" "A" "B" "C" "default" 0 0 0 0
    (by decide) (by decide) (by decide) (by decide)
    (by decide) (by decide) (by decide) (by decide)

/-! ### Claim C8 -/

/-- C8: running `compute_paths` twice in succession with no intervening
topology or traffic change yields the same Flow Table and Backup Path
Registry contents after the second run as after the first run. -/
theorem C8_compute_paths_idempotent {st st1 st2 : SDNController}
    (h1 : compute_paths st = .ok st1) (h2 : compute_paths st1 = .ok st2) :
    st2.flow_tables = st1.flow_tables ∧ st2.backup_paths = st1.backup_paths := by
  have hstable := compute_paths_stable h1
  rw [hstable] at h2
  simp only [Except.ok.injEq] at h2
  rw [← h2]
  exact ⟨rfl, rfl⟩

/-- Witness for C8: two successive path computations on the triangle
agree on flow tables and backup registry. -/
theorem C8_witness :
    (afterCompute (afterCompute triState)).flow_tables =
      (afterCompute triState).flow_tables ∧
    (afterCompute (afterCompute triState)).backup_paths =
      (afterCompute triState).backup_paths :=
  @C8_compute_paths_idempotent triState (afterCompute triState)
    (afterCompute (afterCompute triState)) (by decide) (by decide)

/-! ### Claim C10 -/

/-- C10: in every state reachable by any sequence of the public engine
operations, the two directed utilization counters of a pair coincide —
the counter for (u, v) exists exactly when the counter for (v, u)
exists, and both hold the same value. -/
theorem C10_util_counters_symmetric {st : SDNController} (h : Reachable st)
    (u v : Node) :
    dlookup st.link_utilization (u, v) = dlookup st.link_utilization (v, u) :=
  (reachable_util_inv h).2 u v

/-- Witness for C10: the state reached by adding nodes A, B and link
A-B has equal counters for (A, B) and (B, A). -/
theorem C10_witness :
    dlookup (add_link (add_node (add_node initController "A") "B")
      "A" "B" 1 100).link_utilization ("A", "B") =
    dlookup (add_link (add_node (add_node initController "A") "B")
      "A" "B" 1 100).link_utilization ("B", "A") :=
  C10_util_counters_symmetric
    (Reachable.step (Reachable.step (Reachable.step Reachable.init
      (EngineStep.add_node initController "A"))
      (EngineStep.add_node (add_node initController "A") "B"))
      (EngineStep.add_link (add_node (add_node initController "A") "B") "A" "B" 1 100))
    "A" "B"
